import Mathlib

/-!
Verification development for the Oblivilog chat-log analyzer
(src/Oblivilog.py).  The Python pipeline is shallowly embedded:

* strings are `List Char` (files are read as UTF-8 text lines, newline
  terminators stripped, exactly as `readlines` + the regex's `.`-never-
  matches-newline behaviour combine to produce);
* the regex `\[(?P<timestamp>.+?)\] (?P<username>.+?): (?P<message>.+)`
  used with `re.match` is embedded operationally: lazy groups scan for
  the literal delimiters left to right and backtrack exactly as the
  Python engine does (`findBracketSplit` / `findColonSplit`);
* a pandas `DataFrame` is a list of records plus the fact of whether the
  frame has the three named columns (`pd.DataFrame([])` on an empty
  entry list has no columns, while the error path constructs one with
  explicit columns — this distinction is what `chat_df['timestamp']`
  raises `KeyError` on);
* file I/O is a value of type `Option (List (List Char))`: `none` is a
  file whose read or decode raised, `some lines` a successful read;
* raised Python exceptions are `Except PyError`, log output is a
  `List LogEvent`.
-/

structure ChatRecord where
  timestamp : List Char
  username : List Char
  message : List Char
deriving DecidableEq

/-- Boolean test that the second list starts with the first. -/
def beginsWith : List Char → List Char → Bool
  | [], _ => true
  | _ :: _, [] => false
  | p :: ps, c :: cs => p == c && beginsWith ps cs

/-- Python's `pat in s` substring containment test. -/
def hasSub (pat : List Char) : List Char → Bool
  | [] => beginsWith pat []
  | c :: rest => beginsWith pat (c :: rest) || hasSub pat rest

/-- Scan for the literal `: ` of the regex: the lazy `(?P<username>.+?)`
has already consumed one char; this finds the leftmost `': ' :: m` split
whose remainder `m` is non-empty (the greedy `(?P<message>.+)` needs at
least one char), accumulating scanned chars into the username group,
exactly as the Python engine's backtracking does. -/
def findColonSplit : List Char → Option (List Char × List Char)
  | [] => none
  | [_] => none
  | c :: d :: rest =>
    if c = ':' ∧ d = ' ' ∧ rest ≠ [] then some ([], rest)
    else (findColonSplit (d :: rest)).map (fun p => (c :: p.1, p.2))

/-- The `(?P<username>.+?): (?P<message>.+)` part of the regex applied to
the text after `] `: at least one username char, then the first viable
`: ` split. -/
def splitUM : List Char → Option (List Char × List Char)
  | [] => none
  | c :: rest => (findColonSplit rest).map (fun p => (c :: p.1, p.2))

/-- Scan for the literal `] ` of the regex after the lazy
`(?P<timestamp>.+?)` has consumed one char.  At each `] ` occurrence the
engine tries the rest of the pattern (`splitUM`) and on failure
backtracks, letting the timestamp group swallow the `]` and scanning
on. -/
def findBracketSplit : List Char → Option (List Char × (List Char × List Char))
  | [] => none
  | [_] => none
  | c :: d :: rest =>
    if c = ']' ∧ d = ' ' then
      match splitUM rest with
      | some um => some ([], um)
      | none => (findBracketSplit (d :: rest)).map (fun p => (c :: p.1, p.2))
    else (findBracketSplit (d :: rest)).map (fun p => (c :: p.1, p.2))

/-- The compiled pattern of src/Oblivilog.py line 33 used with
`pattern.match(line)`: a literal `[`, a non-empty lazy timestamp, the
literal `] `, a non-empty lazy username, the literal `: ` and a
non-empty greedy message running to the end of the line. -/
def regexMatch : List Char → Option ChatRecord
  | c0 :: c :: rest =>
    if c0 = '[' then (findBracketSplit rest).map (fun p => ⟨c :: p.1, p.2.1, p.2.2⟩)
    else none
  | _ => none

def giftSub1 : List Char := "gifted a Tier 1 sub to".toList

def giftSub2 : List Char := "is gifting".toList

/-- One iteration of the line loop of `parse_chat_data` (lines 35-42):
regex match, then the gift-sub notification filter on the message
group. -/
def parseChatLine (line : List Char) : Option ChatRecord :=
  match regexMatch line with
  | none => none
  | some r =>
    if hasSub giftSub1 r.message || hasSub giftSub2 r.message then none
    else some r

inductive LogEvent where
  | readError
  | noFilesWarning
deriving DecidableEq

inductive PyError where
  | keyError
  | valueError
deriving DecidableEq

/-- A pandas DataFrame as this program uses one: its rows, plus whether
the frame carries the `timestamp`/`username`/`message` columns.
`pd.DataFrame([])` (empty entry list) has no columns at all, while
`pd.DataFrame(columns=[...])` and any frame built from a non-empty
entry list do. -/
structure DF where
  hasCols : Bool
  rows : List ChatRecord
deriving DecidableEq

/-- `parse_chat_data` (lines 25-44): a failed read logs an error and
yields the empty frame that was constructed *with* explicit columns;
a successful read parses each line and builds `pd.DataFrame(chat_entries)`,
which has the three columns exactly when some entry survived. -/
def parse_chat_data (content : Option (List (List Char))) : DF × List LogEvent :=
  match content with
  | none => (⟨true, []⟩, [LogEvent.readError])
  | some lines =>
    (⟨!(lines.filterMap parseChatLine).isEmpty, lines.filterMap parseChatLine⟩, [])

/-- `concatenate_dfs` (lines 46-50): `pd.concat` of the per-file frames,
in the supplied file order.  `pd.concat` on an empty list raises
`ValueError`; on a non-empty list it takes the union of the columns and
stacks the rows. -/
def concatenate_dfs (files : List (Option (List (List Char)))) :
    Except PyError (DF × List LogEvent) :=
  if files.isEmpty then Except.error PyError.valueError
  else
    Except.ok
      (⟨(files.map parse_chat_data).any (fun p => p.1.hasCols),
        ((files.map parse_chat_data).map (fun p => p.1.rows)).flatten⟩,
       ((files.map parse_chat_data).map (fun p => p.2)).flatten)

/-- One step of building `value_counts`: credit one occurrence of `n`,
keeping first-encounter key order. -/
def bump (n : List Char) : List (List Char × Nat) → List (List Char × Nat)
  | [] => [(n, 1)]
  | p :: rest => if p.1 == n then (p.1, p.2 + 1) :: rest else p :: bump n rest

/-- Tally of a key list in first-encounter order. -/
def tally (names : List (List Char)) : List (List Char × Nat) :=
  names.foldl (fun acc n => bump n acc) []

/-- Stable insertion into a count-descending list. -/
def insDesc {α : Type} (p : α × Nat) : List (α × Nat) → List (α × Nat)
  | [] => [p]
  | q :: rest => if q.2 ≤ p.2 then p :: q :: rest else q :: insDesc p rest

/-- Stable sort by count, descending.  (pandas `value_counts` leaves the
relative order of tied counts unspecified; every theorem below is
independent of that order, and this model fixes first-encounter order.) -/
def sortDesc {α : Type} (l : List (α × Nat)) : List (α × Nat) :=
  l.foldr insDesc []

/-- `analyze_data` (lines 52-53): `chat_df['username'].value_counts()` —
tally the `username` column as-is and present the counts in descending
order.  Note the column values are used verbatim: no case
normalization happens here. -/
def analyze_data (rows : List ChatRecord) : List (List Char × Nat) :=
  sortDesc (tally (rows.map (fun r => r.username)))

def sumSnd {α : Type} (l : List (α × Nat)) : Nat :=
  (l.map (fun p => p.2)).sum

/-- Python `str.count` helper for a non-empty pattern `p :: ps`:
left-to-right scan counting non-overlapping occurrences, skipping past
each match.  The fuel argument only bounds the recursion; every scan
step shortens the text by at least one char, so `s.length` fuel is
always enough. -/
def countNEAux (p : Char) (ps : List Char) : Nat → List Char → Nat
  | 0, _ => 0
  | _, [] => 0
  | fuel + 1, c :: rest =>
    if beginsWith (p :: ps) (c :: rest) then countNEAux p ps fuel (rest.drop ps.length) + 1
    else countNEAux p ps fuel rest

def countNE (p : Char) (ps : List Char) (s : List Char) : Nat :=
  countNEAux p ps s.length s

/-- Python `str.count(pat)`: non-overlapping occurrences; the empty
pattern counts `len + 1`. -/
def pyCount (pat s : List Char) : Nat :=
  match pat with
  | [] => s.length + 1
  | p :: ps => countNE p ps s

/-- `count_emote_usage` (lines 129-131): one dict entry per emote in
list order, each the sum over all messages of `message.count(emote)`. -/
def count_emote_usage (rows : List ChatRecord) (emotes : List (List Char)) :
    List (List Char × Nat) :=
  emotes.map (fun e => (e, (rows.map (fun r => pyCount e r.message)).sum))

/-- Decimal rendering of a count, as Python's plain `{count}`
interpolation produces. -/
def natChars (n : Nat) : List Char := (Nat.repr n).toList

/-- Python's `sorted(..., reverse=True)` on the distinct count values:
a stable descending sort. -/
def natSortDesc (l : List Nat) : List Nat := List.insertionSort (· ≥ ·) l

/-- The grouping of `save_user_list_to_file` (lines 113-114):
`groupby` over the Series' own values keeps, for each distinct count,
the index labels in their original order; `sorted(..., reverse=True)`
then lists the distinct counts descending. -/
def groupByCount (counts : List (List Char × Nat)) : List (Nat × List (List Char)) :=
  (natSortDesc ((counts.map (fun p => p.2)).dedup)).map
    (fun v => (v, (counts.filter (fun p => p.2 == v)).map (fun p => p.1)))

/-- The line written for one count group (lines 117-125), including the
one/two/many phrasing split. -/
def renderUserLine (count : Nat) (users : List (List Char)) : List Char :=
  match users with
  | [] => []
  | [u] => "<li>".toList ++ u ++ ": ".toList ++ natChars count ++ " messages</li>\n".toList
  | [u1, u2] =>
    "<li>".toList ++ u1 ++ " and ".toList ++ u2 ++ ": ".toList ++ natChars count ++
      " messages each</li>\n".toList
  | us =>
    "<li>".toList ++ List.intercalate ", ".toList us.dropLast ++ " and ".toList ++
      us.getLastD [] ++ ": ".toList ++ natChars count ++ " messages each</li>\n".toList

/-- One line of `save_emote_usage_to_file` (line 142). -/
def renderEmoteLine (p : List Char × Nat) : List Char :=
  p.1 ++ ": ".toList ++ natChars p.2 ++ "\n".toList

def TOP_USERS_COUNT : Nat := 50

def EMOTES : List (List Char) :=
  ["oblivi118WINK".toList, "oblivi118Lighter".toList, "oblivi118Hands".toList,
   "oblivi118Gun".toList, "oblivi118Cozy".toList, "oblivi118Cookie".toList,
   "oblivi118Lurking".toList, "oblivi118Giggle".toList, "oblivi118Sip".toList,
   "oblivi118Pat".toList, "oblivi118Sing".toList, "oblivi118Heart".toList,
   "oblivi118Blush".toList, "oblivi118Huh".toList, "oblivi118Lol".toList,
   "oblivi118Hehe".toList, "oblivi118What".toList, "oblivi118Evil".toList,
   "oblivi118Zzz".toList, "oblivi118Tea".toList]

/-- The artifacts `process_streamer_data` produces for one streamer
directory: the number interpolated into the chart title (line 70,
`top_users.sum()`), the user-list lines, the two totals appended to the
user list (lines 135-136), and the emote-usage lines. -/
structure Outputs where
  chartTitleTotal : Nat
  userListLines : List (List Char)
  totalMessages : Nat
  totalParticipants : Nat
  emoteLines : List (List Char)
deriving DecidableEq

/-- `process_streamer_data` (lines 146-190) on the contents of the
`.txt` files found in one streamer directory.  An empty file list logs a
warning and returns with no outputs (lines 158-160).  Otherwise:
`chat_df['timestamp']` raises `KeyError` when the concatenated frame
has no columns (line 163); `max(top_users.values)` inside
`visualize_top_users` raises `ValueError` when there are no users
(line 64); else every artifact is produced. -/
def process_streamer_data (files : List (Option (List (List Char)))) :
    Except PyError (Option Outputs) × List LogEvent :=
  if files.isEmpty then (Except.ok none, [LogEvent.noFilesWarning])
  else
    match concatenate_dfs files with
    | Except.error e => (Except.error e, [])
    | Except.ok (df, logs) =>
      if !df.hasCols then (Except.error PyError.keyError, logs)
      else
        if (analyze_data df.rows).take TOP_USERS_COUNT |>.isEmpty then
          (Except.error PyError.valueError, logs)
        else
          (Except.ok (some
            ⟨sumSnd ((analyze_data df.rows).take TOP_USERS_COUNT),
             (groupByCount (analyze_data df.rows)).map (fun g => renderUserLine g.1 g.2),
             sumSnd (analyze_data df.rows),
             (analyze_data df.rows).length,
             (sortDesc (count_emote_usage df.rows EMOTES)).map renderEmoteLine⟩), logs)

/-- Python `str.lower` on ASCII usernames, as used by the
`TARGET_USERS` diagnostic lookup on line 186. -/
def pyLower (s : List Char) : List Char := s.map Char.toLower

/-- `pandas.Series.get(key, 0)` against the tallied counts (line 186). -/
def seriesGet (counts : List (List Char × Nat)) (key : List Char) : Nat :=
  match counts.find? (fun p => p.1 == key) with
  | some p => p.2
  | none => 0

def caseLog : List ChatRecord :=
  [⟨"1".toList, "Alice".toList, "hi".toList⟩, ⟨"2".toList, "alice".toList, "yo".toList⟩]

def aaaLog : List ChatRecord := [⟨"1".toList, "bob".toList, "aaa".toList⟩]

def user51Lines : List (List Char) :=
  (List.range 51).map (fun i => "[1] ".toList ++ [Char.ofNat (65 + i)] ++ ": hi".toList)

def rowsOfFile (c : Option (List (List Char))) : List ChatRecord :=
  (parse_chat_data c).1.rows

def logsOfFile (c : Option (List (List Char))) : List LogEvent :=
  (parse_chat_data c).2

/-- The well-formed line shape `[T] U: M` of §4.1 of the spec. -/
def chatShape (T U M : List Char) : List Char :=
  '[' :: T ++ ']' :: ' ' :: U ++ ':' :: ' ' :: M

/-- The constrained line shape the original claim quantifies over:
`[T] U: M` with T, U, M non-empty, no `] ` inside T and no `: ` inside U. -/
def ConstrainedShape (line : List Char) : Prop :=
  ∃ T U M : List Char, T ≠ [] ∧ U ≠ [] ∧ M ≠ [] ∧
    hasSub [']', ' '] T = false ∧ hasSub [':', ' '] U = false ∧
    line = chatShape T U M

def cexLine : List Char := ['[', 'a', ']', ' ', ':', ' ', 'u', ':', ' ', 'm']

def exCounts : List (List Char × Nat) :=
  [("alice".toList, 5), ("bob".toList, 5), ("carol".toList, 3)]

example : parseChatLine "[12:00:01] Bob: hello there".toList =
    some ⟨"12:00:01".toList, "Bob".toList, "hello there".toList⟩ := by decide

example : parseChatLine "[12:00:01] Bob: user is gifting 5 subs".toList = none := by decide

example : parseChatLine "[a] : u: m".toList =
    some ⟨"a".toList, ": u".toList, "m".toList⟩ := by decide

example : parseChatLine "[12:00:01] Bob: ".toList = none := by decide

example : pyCount "aa".toList "aaa".toList = 1 := by decide

example : pyCount "abc".toList "abc abc".toList = 2 := by decide

example : groupByCount [("alice".toList, 5), ("bob".toList, 5), ("carol".toList, 3)] =
    [(5, ["alice".toList, "bob".toList]), (3, ["carol".toList])] := by decide

theorem hasSub_cons_false {pat : List Char} {c : Char} {s : List Char}
    (h : hasSub pat (c :: s) = false) :
    beginsWith pat (c :: s) = false ∧ hasSub pat s = false := by
  simpa [hasSub, Bool.or_eq_false_iff] using h

theorem sumSnd_nil {α : Type} : sumSnd ([] : List (α × Nat)) = 0 := rfl

theorem sumSnd_cons {α : Type} (p : α × Nat) (l : List (α × Nat)) :
    sumSnd (p :: l) = p.2 + sumSnd l := by
  simp [sumSnd]

theorem sumSnd_bump (n : List Char) (acc : List (List Char × Nat)) :
    sumSnd (bump n acc) = sumSnd acc + 1 := by
  induction acc with
  | nil => simp [bump, sumSnd]
  | cons p rest ih =>
    by_cases h : p.1 == n
    · simp [bump, h, sumSnd_cons]
      omega
    · simp only [bump, h, Bool.false_eq_true, if_false, sumSnd_cons, ih]
      omega

theorem sumSnd_tally_aux (names : List (List Char)) (acc : List (List Char × Nat)) :
    sumSnd (names.foldl (fun a n => bump n a) acc) = sumSnd acc + names.length := by
  induction names generalizing acc with
  | nil => simp
  | cons n rest ih =>
    simp only [List.foldl_cons, ih, sumSnd_bump, List.length_cons]
    omega

theorem sumSnd_tally (names : List (List Char)) : sumSnd (tally names) = names.length := by
  simpa [tally, sumSnd] using sumSnd_tally_aux names []

theorem sumSnd_insDesc {α : Type} (p : α × Nat) (l : List (α × Nat)) :
    sumSnd (insDesc p l) = p.2 + sumSnd l := by
  induction l with
  | nil => simp [insDesc, sumSnd]
  | cons q rest ih =>
    by_cases h : q.2 ≤ p.2
    · simp [insDesc, h, sumSnd_cons]
    · simp only [insDesc, h, if_false, sumSnd_cons, ih]
      omega

theorem sumSnd_sortDesc {α : Type} (l : List (α × Nat)) : sumSnd (sortDesc l) = sumSnd l := by
  induction l with
  | nil => rfl
  | cons p rest ih =>
    simp only [sortDesc, List.foldr_cons] at *
    rw [sumSnd_insDesc, ih, sumSnd_cons]

theorem sumSnd_analyze_data (rows : List ChatRecord) :
    sumSnd (analyze_data rows) = rows.length := by
  simp [analyze_data, sumSnd_sortDesc, sumSnd_tally]

/-- Claim C2: for every chat log produced by the loader, the values of the
per-user counts returned by `analyze_data` sum to the number of records that
survived parsing and the gift-sub filter, i.e. the row count of the
concatenated frame. -/
theorem analyze_data_total_eq_rowcount (files : List (Option (List (List Char))))
    (df : DF) (logs : List LogEvent)
    (h : concatenate_dfs files = Except.ok (df, logs)) :
    sumSnd (analyze_data df.rows) = df.rows.length :=
  sumSnd_analyze_data df.rows

theorem analyze_data_total_eq_rowcount_w :
    sumSnd (analyze_data [(⟨"1".toList, "a".toList, "hi".toList⟩ : ChatRecord)]) = 1 :=
  analyze_data_total_eq_rowcount [some ["[1] a: hi".toList]]
    ⟨true, [⟨"1".toList, "a".toList, "hi".toList⟩]⟩ [] rfl

/-- Claim C1 (code bug): `analyze_data` tallies the `username` column
verbatim, with no lowercase normalization anywhere, even though the
diagnostic lookup on line 186 reads the counts with a lowercased key.  On a
log holding one message by `Alice` and one by `alice` the counts keep two
distinct keys with one message each, and the line-186 style lookup of the
lowercased name finds 1, not the 2 records that bear the name
case-insensitively. -/
theorem analyze_data_case_sensitive :
    analyze_data caseLog = [("Alice".toList, 1), ("alice".toList, 1)] ∧
    seriesGet (analyze_data caseLog) (pyLower "Alice".toList) = 1 ∧
    (caseLog.filter (fun r => pyLower r.username == "alice".toList)).length = 2 := by
  decide

/-- Claim C5 counterexample: `str.count` counts non-overlapping occurrences,
so on the single message "aaa" the emote token "aa" is counted once, not the
twice the claim's overlapping rule requires. -/
theorem count_emote_usage_overlap_cex :
    count_emote_usage aaaLog ["aa".toList] = [("aa".toList, 1)] ∧ (1 : Nat) ≠ 2 := by
  decide

theorem countNEAux_absent (p : Char) (ps : List Char) (fuel : Nat) :
    ∀ s : List Char, hasSub (p :: ps) s = false → countNEAux p ps fuel s = 0 := by
  induction fuel with
  | zero => intro s _; cases s <;> rfl
  | succ n ih =>
    intro s hs
    cases s with
    | nil => rfl
    | cons c rest =>
      have h := hasSub_cons_false hs
      simp only [countNEAux, h.1, Bool.false_eq_true, if_false]
      exact ih rest h.2

theorem pyCount_absent (e s : List Char) (he : e ≠ []) (hs : hasSub e s = false) :
    pyCount e s = 0 := by
  cases e with
  | nil => exact absurd rfl he
  | cons p ps => exact countNEAux_absent p ps s.length s hs

/-- Claim C5 (amended): `count_emote_usage` returns one entry per emote
token in list order; the entry for a token is the sum over all messages of
Python `str.count` occurrences of the token, which are counted
non-overlapping, left to right; a non-empty token occurring in no message
still gets an entry, mapped to 0. -/
theorem count_emote_usage_spec (rows : List ChatRecord) (emotes : List (List Char)) :
    (count_emote_usage rows emotes).map (fun p => p.1) = emotes ∧
    (∀ e, e ∈ emotes →
      (e, (rows.map (fun r => pyCount e r.message)).sum) ∈ count_emote_usage rows emotes) ∧
    (∀ e, e ∈ emotes → e ≠ [] → (∀ r, r ∈ rows → hasSub e r.message = false) →
      (e, 0) ∈ count_emote_usage rows emotes) := by
  refine ⟨by rw [count_emote_usage, List.map_map]; exact List.map_id emotes, ?_, ?_⟩
  · intro e he
    exact List.mem_map_of_mem (fun e => (e, (rows.map (fun r => pyCount e r.message)).sum)) he
  · intro e he hne habs
    have hz : (rows.map (fun r => pyCount e r.message)).sum = 0 := by
      have : ∀ x ∈ rows.map (fun r => pyCount e r.message), x = 0 := by
        intro x hx
        obtain ⟨r, hr, rfl⟩ := List.mem_map.mp hx
        exact pyCount_absent e r.message hne (habs r hr)
      exact List.sum_eq_zero this
    refine List.mem_map.mpr ⟨e, he, ?_⟩
    simp [hz]

theorem count_emote_usage_spec_w :
    (count_emote_usage aaaLog ["aa".toList, "zz".toList]).map (fun p => p.1) =
      ["aa".toList, "zz".toList] ∧
    ("aa".toList, 1) ∈ count_emote_usage aaaLog ["aa".toList, "zz".toList] ∧
    ("zz".toList, 0) ∈ count_emote_usage aaaLog ["aa".toList, "zz".toList] := by
  have h := count_emote_usage_spec aaaLog ["aa".toList, "zz".toList]
  exact ⟨h.1, h.2.1 "aa".toList (by decide), h.2.2 "zz".toList (by decide) (by decide) (by decide)⟩

/-- Claim C6 (code bug): an empty directory only logs a warning and produces
nothing, but a directory whose only log file contains no parseable line
crashes with `KeyError` (line 163 reads `chat_df['timestamp']` from the
column-less frame `pd.DataFrame([])` builds), and one whose only file is
unreadable crashes with `ValueError` (line 64 takes `max` of the empty
`top_users.values`), contradicting never-raises. -/
theorem process_crashes_on_empty_parse :
    process_streamer_data [] = (Except.ok none, [LogEvent.noFilesWarning]) ∧
    process_streamer_data [some ["hello world".toList]] =
      (Except.error PyError.keyError, []) ∧
    process_streamer_data [none] =
      (Except.error PyError.valueError, [LogEvent.readError]) :=
  ⟨rfl, rfl, rfl⟩

/-- Claim C7 (code bug): the number interpolated into the chart title is
`top_users.sum()`, the message total of only the `TOP_USERS_COUNT` charted
users, even though the title labels it "Total Messages"; on a log with 51
distinct single-message users the title says 50 while the log holds 51
records (and `append_totals_to_file` reports 51). -/
theorem chart_title_not_total :
    (process_streamer_data [some user51Lines]).1.map
      (fun o => o.map (fun out => out.chartTitleTotal)) = Except.ok (some 50) ∧
    (process_streamer_data [some user51Lines]).1.map
      (fun o => o.map (fun out => out.totalMessages)) = Except.ok (some 51) ∧
    (50 : Nat) ≠ 51 :=
  ⟨rfl, rfl, by decide⟩

/-- Claim C8: a file whose read fails contributes zero records and exactly
one logged read error; every other file in the list is still parsed, and the
concatenated rows keep file-supplied order, each file's records in line
order. -/
theorem concatenate_dfs_read_failure (fs1 fs2 : List (Option (List (List Char)))) :
    concatenate_dfs (fs1 ++ none :: fs2) =
      Except.ok
        (⟨true, (fs1.map rowsOfFile).flatten ++ (fs2.map rowsOfFile).flatten⟩,
         (fs1.map logsOfFile).flatten ++ LogEvent.readError :: (fs2.map logsOfFile).flatten) ∧
    rowsOfFile none = [] := by
  constructor
  · simp only [concatenate_dfs, rowsOfFile, logsOfFile, parse_chat_data, List.map_append,
      List.map_map, List.map_cons, List.flatten_append, List.flatten_cons,
      List.append_assoc, List.isEmpty_eq_true, List.append_eq_nil, List.any_append,
      List.any_cons]
    simp [parse_chat_data]
    exact ⟨rfl, rfl⟩
  · rfl

theorem not_pair_of_hasSub_false {p q a b : Char} {l : List Char}
    (h : hasSub [p, q] (a :: b :: l) = false) : ¬(a = p ∧ b = q) := by
  rintro ⟨rfl, rfl⟩
  have hb := (hasSub_cons_false h).1
  simp [beginsWith] at hb

theorem findColonSplit_complete (M : List Char) (hM : M ≠ []) :
    ∀ U : List Char, hasSub [':', ' '] U = false →
    findColonSplit (U ++ ':' :: ' ' :: M) = some (U, M) := by
  intro U
  induction U with
  | nil =>
    intro _
    obtain ⟨m, ms, rfl⟩ := List.exists_cons_of_ne_nil hM
    simp only [List.nil_append, findColonSplit]
    rw [if_pos (by simp)]
  | cons a U' ih =>
    intro hU
    have hU' : hasSub [':', ' '] U' = false := (hasSub_cons_false hU).2
    cases U' with
    | nil =>
      obtain ⟨m, ms, rfl⟩ := List.exists_cons_of_ne_nil hM
      simp only [List.nil_append, List.cons_append, findColonSplit]
      rw [if_neg (by rintro ⟨_, h2, _⟩; exact absurd h2 (by decide))]
      rw [if_pos (by simp)]
      rfl
    | cons b U'' =>
      have hab : ¬(a = ':' ∧ b = ' ') := not_pair_of_hasSub_false hU
      have ih' := ih hU'
      simp only [List.cons_append] at ih' ⊢
      rw [findColonSplit]
      rw [if_neg (by rintro ⟨h1, h2, _⟩; exact hab ⟨h1, h2⟩)]
      rw [ih']
      rfl

theorem splitUM_complete (U M : List Char) (hU0 : U ≠ []) (hM : M ≠ [])
    (hU : hasSub [':', ' '] U = false) :
    splitUM (U ++ ':' :: ' ' :: M) = some (U, M) := by
  obtain ⟨u0, U', rfl⟩ := List.exists_cons_of_ne_nil hU0
  have hU' : hasSub [':', ' '] U' = false := (hasSub_cons_false hU).2
  simp only [List.cons_append, splitUM]
  rw [findColonSplit_complete M hM U' hU']
  rfl

theorem findBracketSplit_complete (U M : List Char) (hU0 : U ≠ []) (hM : M ≠ [])
    (hU : hasSub [':', ' '] U = false) :
    ∀ T : List Char, hasSub [']', ' '] T = false →
    findBracketSplit (T ++ ']' :: ' ' :: U ++ ':' :: ' ' :: M) = some (T, (U, M)) := by
  intro T
  induction T with
  | nil =>
    intro _
    obtain ⟨u0, U', rfl⟩ := List.exists_cons_of_ne_nil hU0
    simp only [List.nil_append, List.cons_append, findBracketSplit]
    rw [if_pos (by simp)]
    have hsp := splitUM_complete (u0 :: U') M hU0 hM hU
    simp only [List.append_eq, List.cons_append] at hsp ⊢
    rw [hsp]
  | cons a T' ih =>
    intro hT
    have hT' : hasSub [']', ' '] T' = false := (hasSub_cons_false hT).2
    have ih' := ih hT'
    cases T' with
    | nil =>
      simp only [List.nil_append, List.cons_append, findBracketSplit] at ih' ⊢
      rw [if_neg (by rintro ⟨_, h2⟩; exact absurd h2 (by decide))]
      rw [ih']
      rfl
    | cons b T'' =>
      have hab : ¬(a = ']' ∧ b = ' ') := not_pair_of_hasSub_false hT
      simp only [List.cons_append] at ih' ⊢
      rw [findBracketSplit]
      rw [if_neg hab]
      rw [ih']
      rfl

theorem regexMatch_shape (T U M : List Char) (hT0 : T ≠ []) (hU0 : U ≠ []) (hM : M ≠ [])
    (hT : hasSub [']', ' '] T = false) (hU : hasSub [':', ' '] U = false) :
    regexMatch (chatShape T U M) = some ⟨T, U, M⟩ := by
  obtain ⟨t0, T', rfl⟩ := List.exists_cons_of_ne_nil hT0
  have hT' : hasSub [']', ' '] T' = false := (hasSub_cons_false hT).2
  simp only [chatShape, List.cons_append, regexMatch, if_true]
  rw [findBracketSplit_complete U M hU0 hM hU T' hT']
  rfl

/-- Claim C4: a line of the well-formed `[T] U: M` shape whose message part
contains "gifted a Tier 1 sub to" or "is gifting" produces no record: the
regex matches but the gift-sub filter of lines 40-41 drops the entry. -/
theorem parseChatLine_gift_filter (T U M : List Char) (hT0 : T ≠ []) (hU0 : U ≠ [])
    (hM0 : M ≠ []) (hT : hasSub [']', ' '] T = false) (hU : hasSub [':', ' '] U = false)
    (hgift : hasSub giftSub1 M = true ∨ hasSub giftSub2 M = true) :
    parseChatLine (chatShape T U M) = none := by
  have h := regexMatch_shape T U M hT0 hU0 hM0 hT hU
  rcases hgift with hg | hg <;> simp [parseChatLine, h, hg]

theorem parseChatLine_gift_filter_w :
    parseChatLine (chatShape "12:00".toList "bob".toList "user is gifting 5 subs".toList) =
      none :=
  parseChatLine_gift_filter "12:00".toList "bob".toList "user is gifting 5 subs".toList
    (by decide) (by decide) (by decide) (by decide) (by decide) (Or.inr (by decide))

theorem findColonSplit_sound : ∀ (s u m : List Char),
    findColonSplit s = some (u, m) → s = u ++ ':' :: ' ' :: m ∧ m ≠ []
  | [], u, m => by intro h; simp [findColonSplit] at h
  | [c], u, m => by intro h; simp [findColonSplit] at h
  | c :: d :: rest, u, m => by
    intro h
    rw [findColonSplit] at h
    split at h
    · rename_i hc
      obtain ⟨rfl, rfl, hr⟩ := hc
      simp only [Option.some.injEq, Prod.mk.injEq] at h
      obtain ⟨rfl, rfl⟩ := h
      exact ⟨by simp, hr⟩
    · rw [Option.map_eq_some'] at h
      obtain ⟨⟨u', m'⟩, hp, heq⟩ := h
      have ih := findColonSplit_sound (d :: rest) u' m' hp
      simp only [Prod.mk.injEq] at heq
      obtain ⟨h1, h2⟩ := heq
      subst h1; subst h2
      exact ⟨by simp [List.cons_append, ih.1], ih.2⟩

theorem splitUM_sound (s u m : List Char) (h : splitUM s = some (u, m)) :
    s = u ++ ':' :: ' ' :: m ∧ u ≠ [] ∧ m ≠ [] := by
  cases s with
  | nil => simp [splitUM] at h
  | cons c rest =>
    rw [splitUM, Option.map_eq_some'] at h
    obtain ⟨⟨u', m'⟩, hp, heq⟩ := h
    have hs := findColonSplit_sound rest u' m' hp
    simp only [Prod.mk.injEq] at heq
    obtain ⟨h1, h2⟩ := heq
    subst h1; subst h2
    exact ⟨by simp [List.cons_append, hs.1], by simp, hs.2⟩

theorem findBracketSplit_sound : ∀ (s t u m : List Char),
    findBracketSplit s = some (t, (u, m)) →
    s = t ++ ']' :: ' ' :: u ++ ':' :: ' ' :: m ∧ u ≠ [] ∧ m ≠ []
  | [], t, u, m => by intro h; simp [findBracketSplit] at h
  | [c], t, u, m => by intro h; simp [findBracketSplit] at h
  | c :: d :: rest, t, u, m => by
    intro h
    rw [findBracketSplit] at h
    split at h
    · rename_i hcd
      obtain ⟨rfl, rfl⟩ := hcd
      cases hsp : splitUM rest with
      | some um =>
        obtain ⟨u', m'⟩ := um
        rw [hsp] at h
        simp only [Option.some.injEq, Prod.mk.injEq] at h
        obtain ⟨rfl, rfl, rfl⟩ := h
        have hs := splitUM_sound rest u' m' hsp
        exact ⟨by simp [hs.1], hs.2.1, hs.2.2⟩
      | none =>
        rw [hsp] at h
        simp only [] at h
        rw [Option.map_eq_some'] at h
        obtain ⟨⟨tE, um⟩, hp, heq⟩ := h
        obtain ⟨u', m'⟩ := um
        have ih := findBracketSplit_sound (' ' :: rest) tE u' m' hp
        simp only [Prod.mk.injEq] at heq
        obtain ⟨h1, h2, h3⟩ := heq
        subst h1; subst h2; subst h3
        exact ⟨by simp only [List.cons_append, List.cons.injEq, true_and]; exact ih.1,
          ih.2.1, ih.2.2⟩
    · rw [Option.map_eq_some'] at h
      obtain ⟨⟨tE, um⟩, hp, heq⟩ := h
      obtain ⟨u', m'⟩ := um
      have ih := findBracketSplit_sound (d :: rest) tE u' m' hp
      simp only [Prod.mk.injEq] at heq
      obtain ⟨h1, h2, h3⟩ := heq
      subst h1; subst h2; subst h3
      exact ⟨by simp only [List.cons_append, List.cons.injEq, true_and]; exact ih.1,
        ih.2.1, ih.2.2⟩

theorem regexMatch_sound (line : List Char) (r : ChatRecord)
    (h : regexMatch line = some r) :
    line = chatShape r.timestamp r.username r.message ∧
    r.timestamp ≠ [] ∧ r.username ≠ [] ∧ r.message ≠ [] := by
  cases line with
  | nil => simp [regexMatch] at h
  | cons c0 tail =>
    cases tail with
    | nil => simp [regexMatch] at h
    | cons c rest =>
      rw [regexMatch] at h
      split at h
      · rename_i hc0
        subst hc0
        rw [Option.map_eq_some'] at h
        obtain ⟨⟨tE, um⟩, hp, heq⟩ := h
        obtain ⟨u, m⟩ := um
        have hs := findBracketSplit_sound rest tE u m hp
        subst heq
        refine ⟨?_, by simp, hs.2.1, hs.2.2⟩
        simp only [chatShape, List.cons_append, List.cons.injEq, true_and]
        exact hs.1
      · exact absurd h (by simp)

theorem parseChatLine_some {line : List Char} {r : ChatRecord}
    (h : parseChatLine line = some r) : regexMatch line = some r := by
  cases hm : regexMatch line with
  | none =>
    rw [parseChatLine, hm] at h
    simp at h
  | some r' =>
    rw [parseChatLine, hm] at h
    simp only [] at h
    split at h
    · exact absurd h (by simp)
    · exact h

/-- Claim C3 (amended): a line of the exact shape `[T] U: M` with T, U, M
non-empty, T containing no `] ` and U containing no `: `, whose message
does not contain either exclusion substring, parses to exactly the record
(timestamp=T, username=U, message=M) verbatim; and a line that admits no
decomposition `[t] u: m` with t, u, m non-empty (no constraints on t, u)
produces no record.  (Corrected from the original claim, whose second clause
said any line outside the constrained shape yields no record: a line whose
only decompositions put `: ` inside the username span still matches — the
lazy groups backtrack past the inner `: ` — see the counterexample.) -/
theorem parseChatLine_wellformed :
    (∀ T U M : List Char, T ≠ [] → U ≠ [] → M ≠ [] →
      hasSub [']', ' '] T = false → hasSub [':', ' '] U = false →
      hasSub giftSub1 M = false → hasSub giftSub2 M = false →
      parseChatLine (chatShape T U M) = some ⟨T, U, M⟩) ∧
    (∀ line : List Char,
      (∀ t u m : List Char, t ≠ [] → u ≠ [] → m ≠ [] → line ≠ chatShape t u m) →
      parseChatLine line = none) := by
  constructor
  · intro T U M hT0 hU0 hM0 hT hU h1 h2
    simp [parseChatLine, regexMatch_shape T U M hT0 hU0 hM0 hT hU, h1, h2]
  · intro line hno
    cases hp : parseChatLine line with
    | none => rfl
    | some r =>
      have hr := parseChatLine_some hp
      obtain ⟨hline, ht, hu, hm⟩ := regexMatch_sound line r hr
      exact absurd hline (hno r.timestamp r.username r.message ht hu hm)

theorem parseChatLine_wellformed_w :
    parseChatLine (chatShape "12:00:01".toList "Bob".toList "hello there".toList) =
      some ⟨"12:00:01".toList, "Bob".toList, "hello there".toList⟩ ∧
    parseChatLine "hello".toList = none := by
  constructor
  · exact parseChatLine_wellformed.1 "12:00:01".toList "Bob".toList "hello there".toList
      (by decide) (by decide) (by decide) (by decide) (by decide) (by decide) (by decide)
  · refine parseChatLine_wellformed.2 "hello".toList ?_
    intro t u m _ _ _ heq
    have hh : ("hello".toList).head? = (chatShape t u m).head? := by rw [heq]
    rw [chatShape] at hh
    simp at hh

/-- Claim C3 counterexample: the line `[a] : u: m` admits no constrained
`[T] U: M` decomposition (after the only possible timestamp `a` the
remainder starts with `: `, forcing an empty or `: `-containing username),
yet the parser still produces a record — the lazy username group backtracks
to `: u`. -/
theorem parseChatLine_cex :
    parseChatLine cexLine = some ⟨['a'], [':', ' ', 'u'], ['m']⟩ ∧
    ¬ ConstrainedShape cexLine := by
  refine ⟨by decide, ?_⟩
  rintro ⟨T, U, M, hT0, hU0, hM0, hT, hU, heq⟩
  obtain ⟨t0, T', rfl⟩ := List.exists_cons_of_ne_nil hT0
  obtain ⟨u0, U', rfl⟩ := List.exists_cons_of_ne_nil hU0
  simp only [cexLine, chatShape, List.cons_append, List.append_assoc, List.nil_append,
    List.cons.injEq, true_and] at heq
  obtain ⟨rfl, heq⟩ := heq
  cases T' with
  | nil =>
    simp only [List.nil_append, List.cons.injEq, true_and] at heq
    obtain ⟨rfl, heq⟩ := heq
    cases U' with
    | nil => simp at heq
    | cons u1 U'' =>
      simp only [List.cons_append, List.cons.injEq] at heq
      obtain ⟨rfl, -⟩ := heq
      simp [hasSub, beginsWith] at hU
  | cons t1 T'' =>
    simp only [List.cons_append, List.cons.injEq] at heq
    obtain ⟨rfl, heq⟩ := heq
    cases T'' with
    | nil => simp at heq
    | cons t2 T''' =>
      simp only [List.cons_append, List.cons.injEq] at heq
      obtain ⟨rfl, -⟩ := heq
      simp [hasSub, beginsWith] at hT

theorem suffix_colon : ∀ (u V m : List Char),
    hasSub [':', ' '] V = false → m ≠ [] → ¬(V ++ [':', ' '] = u ++ ':' :: ' ' :: m) := by
  intro u
  induction u with
  | nil =>
    intro V m hV hm heq
    cases V with
    | nil =>
      simp only [List.nil_append, List.cons.injEq, true_and] at heq
      exact hm heq.symm
    | cons x V' =>
      simp only [List.cons_append, List.nil_append, List.cons.injEq] at heq
      obtain ⟨rfl, heq⟩ := heq
      cases V' with
      | nil => simp at heq
      | cons y V'' =>
        simp only [List.cons_append, List.cons.injEq] at heq
        obtain ⟨rfl, -⟩ := heq
        simp [hasSub, beginsWith] at hV
  | cons a u' ih =>
    intro V m hV hm heq
    cases V with
    | nil =>
      have hlen := congrArg List.length heq
      simp at hlen
      omega
    | cons x V' =>
      simp only [List.cons_append, List.cons.injEq] at heq
      obtain ⟨rfl, heq⟩ := heq
      exact ih V' m (hasSub_cons_false hV).2 hm heq

theorem bracket_in_U : ∀ (a U b : List Char),
    hasSub [':', ' '] U = false →
    U ++ [':', ' '] = a ++ ']' :: ' ' :: b →
    ∃ V, hasSub [':', ' '] V = false ∧ b = V ++ [':', ' '] := by
  intro a
  induction a with
  | nil =>
    intro U b hU heq
    cases U with
    | nil => simp at heq
    | cons x U' =>
      simp only [List.cons_append, List.nil_append, List.cons.injEq] at heq
      obtain ⟨rfl, heq⟩ := heq
      cases U' with
      | nil => simp at heq
      | cons y U'' =>
        simp only [List.cons_append, List.cons.injEq] at heq
        obtain ⟨rfl, heq⟩ := heq
        exact ⟨U'', (hasSub_cons_false (hasSub_cons_false hU).2).2, heq.symm⟩
  | cons c a' ih =>
    intro U b hU heq
    cases U with
    | nil =>
      have hlen := congrArg List.length heq
      simp at hlen
      omega
    | cons x U' =>
      simp only [List.cons_append, List.cons.injEq] at heq
      obtain ⟨rfl, heq⟩ := heq
      exact ih U' b (hasSub_cons_false hU).2 heq

theorem bracket_splits : ∀ (a T' U b : List Char),
    hasSub [']', ' '] T' = false → hasSub [':', ' '] U = false →
    T' ++ ']' :: ' ' :: U ++ [':', ' '] = a ++ ']' :: ' ' :: b →
    ∃ V, hasSub [':', ' '] V = false ∧ b = V ++ [':', ' '] := by
  intro a
  induction a with
  | nil =>
    intro T' U b hT hU heq
    cases T' with
    | nil =>
      simp only [List.nil_append, List.cons_append, List.cons.injEq, true_and] at heq
      exact ⟨U, hU, heq.symm⟩
    | cons x T'' =>
      simp only [List.cons_append, List.nil_append, List.cons.injEq] at heq
      obtain ⟨rfl, heq⟩ := heq
      cases T'' with
      | nil => simp at heq
      | cons y T''' =>
        simp only [List.cons_append, List.cons.injEq] at heq
        obtain ⟨rfl, -⟩ := heq
        simp [hasSub, beginsWith] at hT
  | cons c a' ih =>
    intro T' U b hT hU heq
    cases T' with
    | nil =>
      simp only [List.nil_append, List.cons_append, List.cons.injEq] at heq
      obtain ⟨rfl, heq⟩ := heq
      cases a' with
      | nil => simp at heq
      | cons d a'' =>
        simp only [List.cons_append, List.cons.injEq] at heq
        obtain ⟨rfl, heq⟩ := heq
        exact bracket_in_U a'' U b hU heq
    | cons x T'' =>
      simp only [List.cons_append, List.cons.injEq] at heq
      obtain ⟨rfl, heq⟩ := heq
      exact ih T'' U b (hasSub_cons_false hT).2 hU heq

theorem findBracketSplit_none : ∀ s : List Char,
    (∀ a b : List Char, s = a ++ ']' :: ' ' :: b → splitUM b = none) →
    findBracketSplit s = none
  | [] => fun _ => rfl
  | [c] => fun _ => rfl
  | c :: d :: rest => fun h => by
    by_cases hcd : c = ']' ∧ d = ' '
    · obtain ⟨rfl, rfl⟩ := hcd
      have h0 : splitUM rest = none := h [] rest rfl
      have hrec := findBracketSplit_none (' ' :: rest)
        (fun a b hab => h (']' :: a) b (by rw [List.cons_append, ← hab]))
      rw [findBracketSplit, if_pos ⟨rfl, rfl⟩, h0, hrec]
      rfl
    · have hrec := findBracketSplit_none (d :: rest)
        (fun a b hab => h (c :: a) b (by rw [List.cons_append, ← hab]))
      rw [findBracketSplit, if_neg hcd, hrec]
      rfl

theorem splitUM_trailing (V : List Char) (hV : hasSub [':', ' '] V = false) :
    splitUM (V ++ [':', ' ']) = none := by
  cases hs : splitUM (V ++ [':', ' ']) with
  | none => rfl
  | some p =>
    obtain ⟨u, m⟩ := p
    obtain ⟨heq, -, hm⟩ := splitUM_sound (V ++ [':', ' ']) u m hs
    exact absurd heq (suffix_colon u V m hV hm)

/-- Claim C10: a line of the form `[T] U: ` with nothing after the
colon-space (for well-formed T and U) produces no record: the greedy
`(?P<message>.+)` group needs at least one character, so the match fails
and the line is silently skipped. -/
theorem parseChatLine_empty_message (T U : List Char) (hT0 : T ≠ []) (hU0 : U ≠ [])
    (hT : hasSub [']', ' '] T = false) (hU : hasSub [':', ' '] U = false) :
    parseChatLine ('[' :: T ++ ']' :: ' ' :: U ++ [':', ' ']) = none := by
  obtain ⟨t0, T', rfl⟩ := List.exists_cons_of_ne_nil hT0
  have hT' : hasSub [']', ' '] T' = false := (hasSub_cons_false hT).2
  have hb : findBracketSplit (T' ++ ']' :: ' ' :: U ++ [':', ' ']) = none := by
    apply findBracketSplit_none
    intro a b heq
    obtain ⟨V, hV, rfl⟩ := bracket_splits a T' U b hT' hU heq
    exact splitUM_trailing V hV
  simp only [List.append_assoc, List.cons_append] at hb
  have hr : regexMatch ('[' :: (t0 :: T') ++ ']' :: ' ' :: U ++ [':', ' ']) = none := by
    simp only [List.cons_append, List.append_assoc, regexMatch, if_true]
    rw [hb]
    rfl
  simp only [List.cons_append, List.append_assoc] at hr
  simp only [parseChatLine, List.cons_append, List.append_assoc, hr]

theorem parseChatLine_empty_message_w :
    parseChatLine ('[' :: "1".toList ++ ']' :: ' ' :: "bob".toList ++ [':', ' ']) = none :=
  parseChatLine_empty_message "1".toList "bob".toList (by decide) (by decide) (by decide)
    (by decide)

theorem natSortDesc_sorted_gt (l : List Nat) (hl : l.Nodup) :
    List.Sorted (· > ·) (natSortDesc l) :=
  (List.sorted_insertionSort (· ≥ ·) l).gt_of_ge
    ((List.perm_insertionSort (· ≥ ·) l).nodup_iff.mpr hl)

/-- Claim C9: `save_user_list_to_file`'s grouping partitions the users into
groups of identical count; the groups are emitted in strictly descending
count order; within a group the users appear in the order their counts
occur in the input mapping; and on {alice:5, bob:5, carol:3} it yields
[(5, [alice, bob]), (3, [carol])], the size-2 group rendered as the line
containing "alice and bob: 5 messages each". -/
theorem groupByCount_spec (counts : List (List Char × Nat)) :
    List.Sorted (· > ·) ((groupByCount counts).map (fun g => g.1)) ∧
    (∀ c us, (c, us) ∈ groupByCount counts →
      us = (counts.filter (fun p => p.2 == c)).map (fun p => p.1)) ∧
    (∀ p, p ∈ counts → ∃ us, (p.2, us) ∈ groupByCount counts ∧ p.1 ∈ us) ∧
    groupByCount exCounts =
      [(5, ["alice".toList, "bob".toList]), (3, ["carol".toList])] ∧
    renderUserLine 5 ["alice".toList, "bob".toList] =
      "<li>alice and bob: 5 messages each</li>\n".toList := by
  refine ⟨?_, ?_, ?_, by decide, by decide⟩
  · have hmap : (groupByCount counts).map (fun g => g.1) =
        natSortDesc ((counts.map (fun p => p.2)).dedup) := by
      rw [groupByCount, List.map_map]
      exact List.map_id _
    rw [hmap]
    exact natSortDesc_sorted_gt _ (List.nodup_dedup _)
  · intro c us hmem
    rw [groupByCount] at hmem
    obtain ⟨v, hv, heq⟩ := List.mem_map.mp hmem
    simp only [Prod.mk.injEq] at heq
    obtain ⟨rfl, h2⟩ := heq
    exact h2.symm
  · intro p hp
    refine ⟨(counts.filter (fun q => q.2 == p.2)).map (fun q => q.1), ?_, ?_⟩
    · rw [groupByCount]
      refine List.mem_map.mpr ⟨p.2, ?_, rfl⟩
      rw [natSortDesc, (List.perm_insertionSort _ _).mem_iff, List.mem_dedup]
      exact List.mem_map_of_mem (fun p => p.2) hp
    · exact List.mem_map.mpr ⟨p, List.mem_filter.mpr ⟨hp, by simp⟩, rfl⟩

theorem groupByCount_spec_w :
    ["alice".toList, "bob".toList] =
      (exCounts.filter (fun p => p.2 == 5)).map (fun p => p.1) :=
  (groupByCount_spec exCounts).2.1 5 ["alice".toList, "bob".toList] (by decide)
